import Mathlib

/-!
Verification of the gappa concurrent aggregation-and-reduction core
(`src/commands/examine/heat_tree.cpp` and `src/commands/analyze/nhd.cpp`)
against its natural-language specification.

The C++ code is shallowly embedded: masses (C++ `double`) are modelled as
exact rationals `ℚ`; the throwing control flow is modelled with
`Except String`; the OpenMP parallel-for with its critical sections is
modelled as a sequential fold over an arbitrary processing order (the
critical sections serialize all shared-state accesses, so every concurrent
execution corresponds to some interleaving order of the per-file bodies).
Functions that live in the external genesis library (outside this
repository) are modelled from the specification and are marked as such in
their doc comments.
-/

namespace Gappa

-- ===========================================================================
--  Data model
-- ===========================================================================

/-- Modelled from the spec: a Tree is "an ordered set of nodes connected by
edges; each edge has a length"; identity for compatibility purposes is
structural.  An edge is (from-node, to-node, branch length); the edge list
order is the edge-index order used by mass vectors. -/
structure Tree where
  nodeCount : Nat
  edges : List (Nat × Nat × ℚ)
deriving DecidableEq

/-- The default-constructed `genesis::tree::Tree` of `heat_tree.cpp` line 114:
no nodes, no edges. -/
def Tree.emptyTree : Tree := ⟨0, []⟩

/-- The genesis `Tree::empty()` check used at `heat_tree.cpp` line 137:
a tree is empty when it has no nodes. -/
def Tree.isEmptyTree (t : Tree) : Bool := t.nodeCount == 0

/-- Modelled from the spec: a Sample is "a Tree plus a mass distribution";
the per-edge masses are what `placement_mass_per_edges_with_multiplicities`
extracts, one rational per edge in edge-index order. -/
structure Sample where
  tree : Tree
  massPerEdge : List ℚ
deriving DecidableEq

/-- Modelled from the spec: genesis
`placement_mass_per_edges_with_multiplicities` returns the per-edge mass
vector of a sample (`heat_tree.cpp` line 130); in this embedding the sample
carries that vector directly. -/
def placement_mass_per_edges_with_multiplicities (s : Sample) : List ℚ :=
  s.massPerEdge

/-- Modelled from the spec: genesis `compatible_trees` decides whether two
trees "are structurally identical — same number of nodes and edges, same
adjacency, same edge-to-index mapping (branch lengths are not required to
match)". -/
def compatible_trees (t1 t2 : Tree) : Bool :=
  t1.nodeCount == t2.nodeCount &&
    t1.edges.map (fun e => (e.1, e.2.1)) == t2.edges.map (fun e => (e.1, e.2.1))

-- ===========================================================================
--  run_heat_tree: accumulation loop (heat_tree.cpp lines 113-154)
-- ===========================================================================

/-- The exact message of the `std::runtime_error` thrown at `heat_tree.cpp`
lines 140 and 147. -/
def heat_tree_error_msg : String :=
  "Input jplace files have differing reference trees."

/-- One iteration of the accumulation loop body of `run_heat_tree`
(`heat_tree.cpp` lines 134-153): inside the critical section, first the
tree slot is filled or checked for compatibility, then the mass vector is
initialized, length-checked, or added index-wise. -/
def heat_step (st : Tree × List ℚ) (s : Sample) : Except String (Tree × List ℚ) :=
  let masses := placement_mass_per_edges_with_multiplicities s
  let tcheck : Except String Tree :=
    if st.1.isEmptyTree then Except.ok s.tree
    else if compatible_trees st.1 s.tree then Except.ok st.1
    else Except.error heat_tree_error_msg
  match tcheck with
  | Except.error e => Except.error e
  | Except.ok t =>
    if st.2.isEmpty then Except.ok (t, masses)
    else if st.2.length = masses.length then
      Except.ok (t, List.zipWith (fun a b => a + b) st.2 masses)
    else Except.error heat_tree_error_msg

/-- The accumulation loop of `run_heat_tree` over a list of (file path,
sample) pairs, in processing order.  The file path is carried because the
source logs it (line 123); the loop body itself never uses it. -/
def heat_fold : Tree × List ℚ → List (String × Sample) → Except String (Tree × List ℚ)
  | st, [] => Except.ok st
  | st, f :: rest =>
    match heat_step st f.2 with
    | Except.error e => Except.error e
    | Except.ok st2 => heat_fold st2 rest

/-- The whole accumulation phase of `run_heat_tree` (`heat_tree.cpp` lines
113-154), starting from the default-constructed tree and empty mass
vector. -/
def accumulate_masses (files : List (String × Sample)) : Except String (Tree × List ℚ) :=
  heat_fold (Tree.emptyTree, []) files

/-- IEEE-style division used to model the unguarded `total_masses[i] /= sum`
at `heat_tree.cpp` line 160: any finite value divided by zero is a
non-finite double (Inf or NaN), modelled as `none`. -/
def fdiv (a b : ℚ) : Option ℚ := if b = 0 then none else some (a / b)

/-- The relative-mass normalization pass of `run_heat_tree` (`heat_tree.cpp`
lines 156-162): `sum = std::accumulate(...)`, then every entry is divided
by `sum` with no guard against `sum = 0`. -/
def relative_normalize (v : List ℚ) : List (Option ℚ) :=
  v.map (fun x => fdiv x v.sum)

/-- The mass pipeline of `run_heat_tree` up to and including the optional
relative normalization (`heat_tree.cpp` lines 113-162). -/
def run_heat_tree_masses (rel : Bool) (files : List (String × Sample)) :
    Except String (Tree × List (Option ℚ)) :=
  match accumulate_masses files with
  | Except.error e => Except.error e
  | Except.ok (t, v) =>
    if rel then Except.ok (t, relative_normalize v)
    else Except.ok (t, v.map some)

-- ===========================================================================
--  run_heat_tree: color normalization pipeline (heat_tree.cpp lines 164-215)
-- ===========================================================================

/-- The numeric domain of a genesis sequential color normalization: only
the min and max values matter for the claims under study. -/
structure ColorNorm where
  min_value : ℚ
  max_value : ℚ
deriving DecidableEq

/-- The configuration fed into the normalization part of `run_heat_tree`:
the log-scaling flag, the optional explicit `--min-value` and `--max-value`
overrides, and whether `--clip-under` was given. -/
structure NormOptions where
  log_scaling : Bool
  min_value_opt : Option ℚ
  max_value_opt : Option ℚ
  clip_under_opt : Bool
deriving DecidableEq

/-- Minimum of a mass vector (0 for the empty vector). -/
def vec_min : List ℚ → ℚ
  | [] => 0
  | x :: xs => xs.foldl min x

/-- Maximum of a mass vector (0 for the empty vector). -/
def vec_max : List ℚ → ℚ
  | [] => 0
  | x :: xs => xs.foldl max x

/-- Modelled from the spec: genesis `ColorNormalization::autoscale` sets
"min = min(V), max = max(V) (ignoring non-finite entries)"; in this exact
embedding all entries are finite. -/
def autoscale (v : List ℚ) : ColorNorm := ⟨vec_min v, vec_max v⟩

/-- Modelled from the spec: `ColorNormOptions::apply_options` applies the
"explicit user overrides for min/max ... on top of the above defaults —
explicit configuration always wins" (`heat_tree.cpp` line 194). -/
def apply_options (o : NormOptions) (cn : ColorNorm) : ColorNorm :=
  ⟨o.min_value_opt.getD cn.min_value, o.max_value_opt.getD cn.max_value⟩

/-- The mode-dependent heuristic of `run_heat_tree` (`heat_tree.cpp` lines
170-190), applied to the autoscaled norm before any user overrides: under
log scaling, a non-positive autoscaled min becomes 1 when the max exceeds
1 and max / 10e4 (the source literal `10e4` is 100000 = 10^5) otherwise;
without log scaling the min is forced to 0. -/
def heuristic_norm (o : NormOptions) (v : List ℚ) : ColorNorm :=
  let cn := autoscale v
  if o.log_scaling then
    if cn.min_value ≤ 0 then
      if 1 < cn.max_value then ⟨1, cn.max_value⟩
      else ⟨cn.max_value / 100000, cn.max_value⟩
    else cn
  else ⟨0, cn.max_value⟩

/-- The final color norm of `run_heat_tree`: user overrides applied on top
of the heuristic defaults (`heat_tree.cpp` line 194). -/
def final_norm (o : NormOptions) (v : List ℚ) : ColorNorm :=
  apply_options o (heuristic_norm o v)

/-- Whether the non-fatal warning of `heat_tree.cpp` lines 198-203 is
emitted: log scaling is on, the pre-override autoscaled min was ≤ 0, and
neither `--min-value` nor `--clip-under` was given. -/
def warning_emitted (o : NormOptions) (v : List ℚ) : Bool :=
  o.log_scaling && decide ((autoscale v).min_value ≤ 0) &&
    o.min_value_opt.isNone && !o.clip_under_opt

/-- The possibly-corrected mass vector after the post-condition check of
`heat_tree.cpp` lines 198-215: in the warning case the vector is left
unmodified; in the override/clip case every value ≤ 0 is rewritten to half
of the final domain minimum. -/
def corrected_masses (o : NormOptions) (v : List ℚ) : List ℚ :=
  if o.log_scaling ∧ (autoscale v).min_value ≤ 0 then
    if o.min_value_opt.isNone ∧ o.clip_under_opt = false then v
    else v.map (fun x => if x ≤ 0 then (final_norm o v).min_value / 2 else x)
  else v

-- ===========================================================================
--  run_nhd: shared auxiliary structures (nhd.cpp lines 111-144)
-- ===========================================================================

/-- Rational addition lifted to `Option`, with `none` (= unreachable / ∞)
absorbing; used by the shortest-path computation below. -/
def oplus : Option ℚ → Option ℚ → Option ℚ
  | some a, some b => some (a + b)
  | _, _ => none

/-- Minimum on `Option ℚ`, with `none` acting as ∞. -/
def omin : Option ℚ → Option ℚ → Option ℚ
  | some a, some b => some (min a b)
  | some a, none => some a
  | none, b => b

/-- Direct-edge distance between two nodes of a tree: 0 on the diagonal,
the branch length if an edge connects them (in either direction), ∞
(`none`) otherwise. -/
def adj_dist (t : Tree) (i j : Nat) : Option ℚ :=
  if i = j then some 0
  else ((t.edges.filter (fun e => (e.1 = i ∧ e.2.1 = j) ∨ (e.1 = j ∧ e.2.1 = i))).map
    (fun e => some e.2.2)).foldr omin none

/-- One relaxation round of the all-pairs shortest-path computation through
intermediate node `k`. -/
def fw_step (d : Nat → Nat → Option ℚ) (k : Nat) : Nat → Nat → Option ℚ :=
  fun i j => omin (d i j) (oplus (d i k) (d k j))

/-- All-pairs shortest-path distances over the tree, by relaxation over all
intermediate nodes (Floyd–Warshall). -/
def tree_dists (t : Tree) : Nat → Nat → Option ℚ :=
  (List.range t.nodeCount).foldl fw_step (adj_dist t)

/-- Modelled from the spec: genesis `node_branch_length_distance_matrix`
(`nhd.cpp` line 137) — "an all-pairs node-distance matrix" derived from the
tree topology and branch lengths; entry (i, j) is the branch-length path
distance between nodes i and j. -/
def node_branch_length_distance_matrix (t : Tree) : List (List ℚ) :=
  (List.range t.nodeCount).map (fun i =>
    (List.range t.nodeCount).map (fun j => (tree_dists t i j).getD 0))

/-- Modelled from the spec: genesis `node_root_direction_matrix`
(`nhd.cpp` line 138) — the "node-side/rooting-direction matrix": entry
(i, j) is 0 on the diagonal, -1 when node j lies away from the root (node
0) as seen from node i (the root-to-j path passes through i, detected via
the tree-metric identity), and +1 otherwise. -/
def node_root_direction_matrix (t : Tree) : List (List Int) :=
  (List.range t.nodeCount).map (fun i =>
    (List.range t.nodeCount).map (fun j =>
      if i = j then 0
      else if oplus (tree_dists t 0 i) (tree_dists t i j) = tree_dists t 0 j then -1
      else 1))

/-- Bin index of a value `x` within `bins` equal-width bins spanning
`[lo, hi]`, clamped to the last bin. -/
def bin_index (bins : Nat) (lo hi x : ℚ) : Nat :=
  if hi ≤ lo then 0
  else min (bins - 1) (Int.toNat ⌊(x - lo) / (hi - lo) * bins⌋)

/-- Modelled from the spec: genesis `node_distance_histogram_set`
(`nhd.cpp` line 143) — per node, a fixed-size histogram of the sample's
per-edge masses binned by (side-signed) distance from that node, using the
shared node-distance and node-side matrices. -/
def node_distance_histogram_set (s : Sample) (node_distances : List (List ℚ))
    (node_sides : List (List Int)) (bins : Nat) : List (List ℚ) :=
  (List.range node_distances.length).map (fun i =>
    let row := (node_distances[i]?).getD []
    let hi := row.foldr max 0
    let signed : List (ℚ × ℚ) := (List.range s.massPerEdge.length).map (fun k =>
      let v := ((s.tree.edges[k]?).map (fun e => e.2.1)).getD 0
      let dist := ((row[v]?).getD 0)
      let sgn : ℚ :=
        if (((node_sides[i]?).getD [])[v]?).getD (1 : Int) < 0 then -1 else 1
      (sgn * dist, (s.massPerEdge[k]?).getD 0))
    (List.range bins).map (fun b =>
      ((signed.filter (fun p => bin_index bins (-hi) hi p.1 = b)).map (fun p => p.2)).sum))

/-- The shared state of the `run_nhd` loop (`nhd.cpp` lines 113-116): the
lazily built node-distance and node-side matrices, and the per-file result
slots `hist_vecs`. -/
structure NhdState where
  node_distances : List (List ℚ)
  node_sides : List (List Int)
  hist_vecs : List (Option (List (List ℚ)))
deriving DecidableEq

/-- One iteration of the `run_nhd` loop body (`nhd.cpp` lines 122-144) for
file index `fi`: under the critical section, whoever arrives first with the
matrices still empty builds them from its own sample; then the per-sample
histogram set is computed with the published matrices and stored into the
index-keyed result slot. -/
def nhd_step (samples : List Sample) (bins : Nat) (st : NhdState) (fi : Nat) : NhdState :=
  match samples[fi]? with
  | none => st
  | some sample =>
    let st1 :=
      if st.node_distances.isEmpty then
        { st with
          node_distances := node_branch_length_distance_matrix sample.tree
          node_sides := node_root_direction_matrix sample.tree }
      else st
    { st1 with
      hist_vecs := st1.hist_vecs.set fi
        (some (node_distance_histogram_set sample st1.node_distances st1.node_sides bins)) }

/-- The `run_nhd` loading loop (`nhd.cpp` lines 122-144) executed along an
arbitrary processing order of the file indices, starting from empty shared
matrices and all result slots unfilled. -/
def run_nhd_loop (samples : List Sample) (bins : Nat) (order : List Nat) : NhdState :=
  order.foldl (nhd_step samples bins) ⟨[], [], List.replicate samples.length none⟩

-- ===========================================================================
--  Pairwise distance engine (nhd.cpp line 149; spec section 4.2)
-- ===========================================================================

/-- Modelled from the spec: the per-node scalar combining two histograms —
a one-dimensional earth-mover style distance: the sum of the absolute
values of the running prefix sums of the bin-wise differences. -/
def histogram_emd (a b : List ℚ) : ℚ :=
  (((List.zipWith (fun x y => x - y) a b).scanl (fun acc x => acc + x) 0).map
    (fun x => |x|)).sum

/-- Modelled from the spec: the distance between two node histogram sets —
the per-node scalars summed across nodes. -/
def hist_set_distance (x y : List (List ℚ)) : ℚ :=
  (List.zipWith histogram_emd x y).sum

/-- Modelled from the spec: entry (i, j) of the pairwise result matrix —
0 on the diagonal; otherwise the distance is explicitly computed only for
i < j (at the ordered pair (min, max)) and mirrored. -/
def nhd_entry (hv : List (List (List ℚ))) (i j : Nat) : ℚ :=
  if i = j then 0
  else hist_set_distance ((hv[min i j]?).getD []) ((hv[max i j]?).getD [])

/-- Modelled from the spec: genesis `node_histogram_distance`
(`nhd.cpp` line 149) — the N×N symmetric pairwise distance matrix over the
collection of per-sample node histogram sets. -/
def node_histogram_distance (hv : List (List (List ℚ))) : List (List ℚ) :=
  (List.range hv.length).map (fun i =>
    (List.range hv.length).map (fun j => nhd_entry hv i j))

/-- The whole `run_nhd` pipeline (`nhd.cpp` lines 96-156) in canonical file
order: run the loading loop, then compute the pairwise matrix.  The
function body of `run_nhd` contains no throw site, so the result is always
`Except.ok`; the `Except` wrapper records exactly that absence of any
fatal-error path. -/
def run_nhd_model (files : List (String × Sample)) (bins : Nat) :
    Except String (List (List ℚ)) :=
  Except.ok (node_histogram_distance
    ((run_nhd_loop (files.map (fun f => f.2)) bins
      (List.range files.length)).hist_vecs.map (fun o => o.getD [])))

-- ===========================================================================
--  Index-wise vocabulary used by the order-independence statements
-- ===========================================================================

/-- Entry `i` of a mass vector, with 0 out of range. -/
def vidx (v : List ℚ) (i : Nat) : ℚ := (v[i]?).getD 0

/-- The index-wise sum of the per-sample mass vectors of a file list: entry
`i` is the sum over all files of entry `i` of that file's mass vector.
This is the order-independent closed form of the accumulation loop. -/
def mass_sum_vec (n : Nat) (files : List (String × Sample)) : List ℚ :=
  (List.range n).map (fun i => (files.map (fun f => vidx f.2.massPerEdge i)).sum)

-- ===========================================================================
--  Helper lemmas
-- ===========================================================================

lemma sum_map_div (v : List ℚ) (s : ℚ) :
    (v.map (fun x => x / s)).sum = v.sum / s := by
  induction v with
  | nil => simp
  | cons x xs ih => simp [ih, add_div]

-- ===========================================================================
--  C2 and C3: the log-scaling normalization pipeline
-- ===========================================================================

/-- C2: in `run_heat_tree`, if log scaling is requested and the autoscaled
minimum of the accumulated mass vector is ≤ 0, then — before any explicit
user overrides are applied — the domain minimum is set to 1 whenever the
autoscaled maximum is > 1, and otherwise to the autoscaled maximum divided
by 10^5. -/
theorem heat_tree_log_min_heuristic (o : NormOptions) (v : List ℚ)
    (hlog : o.log_scaling = true) (hmin : (autoscale v).min_value ≤ 0) :
    ((heuristic_norm o v).min_value =
      if 1 < (autoscale v).max_value then 1
      else (autoscale v).max_value / 100000) ∧
    final_norm o v = apply_options o (heuristic_norm o v) := by
  constructor
  · unfold heuristic_norm
    rw [hlog]
    simp only [if_true, hmin, if_pos]
    split <;> rfl
  · rfl

/-- Witness for C2, covering both example inputs of the claim: autoscaled
min 0 with max 2 yields a domain minimum of 1, and autoscaled min 0 with
max 2/5 yields a domain minimum of (2/5) / 10^5. -/
theorem heat_tree_log_min_heuristic_witness :
    (heuristic_norm ⟨true, none, none, false⟩ [0, 2]).min_value = 1 ∧
    (heuristic_norm ⟨true, none, none, false⟩ [0, 2/5]).min_value = (2/5) / 100000 := by
  constructor
  · have h := (heat_tree_log_min_heuristic ⟨true, none, none, false⟩ [0, 2] rfl
      (by simp [autoscale, vec_min])).1
    rw [h]
    rw [if_pos (by norm_num [autoscale, vec_max])]
  · have h := (heat_tree_log_min_heuristic ⟨true, none, none, false⟩ [0, 2/5] rfl
      (by simp [autoscale, vec_min])).1
    rw [h]
    rw [if_neg (by norm_num [autoscale, vec_max])]
    norm_num [autoscale, vec_max]

/-- C3: in `run_heat_tree`, when log scaling is active and the pre-override
autoscaled minimum was ≤ 0: with neither an explicit min override nor a
clip-under request, the warning is emitted and the mass vector is left
unmodified; otherwise no warning is emitted and every value ≤ 0 is
rewritten to half of the final domain minimum. -/
theorem heat_tree_log_zero_mass_policy (o : NormOptions) (v : List ℚ)
    (hlog : o.log_scaling = true) (hmin : (autoscale v).min_value ≤ 0) :
    ((o.min_value_opt = none ∧ o.clip_under_opt = false) →
      warning_emitted o v = true ∧ corrected_masses o v = v) ∧
    ((o.min_value_opt ≠ none ∨ o.clip_under_opt = true) →
      warning_emitted o v = false ∧
      corrected_masses o v =
        v.map (fun x => if x ≤ 0 then (final_norm o v).min_value / 2 else x)) := by
  constructor
  · rintro ⟨h1, h2⟩
    constructor
    · simp [warning_emitted, hlog, hmin, h1, h2]
    · rw [corrected_masses, if_pos ⟨hlog, hmin⟩, if_pos ⟨by simp [h1], h2⟩]
  · intro h
    have hcond : ¬ (o.min_value_opt.isNone = true ∧ o.clip_under_opt = false) := by
      rcases h with h | h
      · rintro ⟨h1, _⟩
        exact h (Option.isNone_iff_eq_none.mp h1)
      · rintro ⟨_, h2⟩
        rw [h] at h2
        exact Bool.noConfusion h2
    constructor
    · rcases h with h | h
      · have : o.min_value_opt.isNone = false := by
          cases ho : o.min_value_opt with
          | none => exact absurd ho h
          | some a => rfl
        simp [warning_emitted, this]
      · simp [warning_emitted, h]
    · rw [corrected_masses, if_pos ⟨hlog, hmin⟩, if_neg hcond]

/-- Witness for C3, covering the claim's example: with log scaling and an
explicit min-value override of 1/100, no warning is emitted, the final
domain minimum is 1/100, and the input value 0 is rewritten to 1/200. -/
theorem heat_tree_log_zero_mass_policy_witness :
    warning_emitted ⟨true, some (1/100), none, false⟩ [0, 1] = false ∧
    corrected_masses ⟨true, some (1/100), none, false⟩ [0, 1] =
      [0, 1].map (fun x => if x ≤ 0 then
        (final_norm ⟨true, some (1/100), none, false⟩ [0, 1]).min_value / 2 else x) ∧
    (final_norm ⟨true, some (1/100), none, false⟩ [0, 1]).min_value = 1/100 ∧
    corrected_masses ⟨true, some (1/100), none, false⟩ [0, 1] = [1/200, 1] := by
  have h := (heat_tree_log_zero_mass_policy ⟨true, some (1/100), none, false⟩ [0, 1] rfl
    (by simp [autoscale, vec_min])).2 (Or.inl (by simp))
  refine ⟨h.1, h.2, by simp [final_norm, apply_options], ?_⟩
  rw [h.2]
  norm_num [final_norm, apply_options]

-- ===========================================================================
--  C4: the fatal incompatibility error and its message
-- ===========================================================================

/-- Counterexample for C4 as stated: the fatal error raised on two samples
with incompatible reference trees is the same fixed message for two runs
whose offending files have different names, so the message cannot name the
offending file. -/
theorem heat_tree_error_no_file_name_counterexample :
    compatible_trees ⟨2, [(0,1,1)]⟩ ⟨2, [(1,0,5)]⟩ = false ∧
    accumulate_masses
      [("alpha.jplace", ⟨⟨2, [(0,1,1)]⟩, [1,3]⟩), ("beta.jplace", ⟨⟨2, [(1,0,5)]⟩, [2,1]⟩)] =
      Except.error "Input jplace files have differing reference trees." ∧
    accumulate_masses
      [("gamma.jplace", ⟨⟨2, [(0,1,1)]⟩, [1,3]⟩), ("delta.jplace", ⟨⟨2, [(1,0,5)]⟩, [2,1]⟩)] =
      Except.error "Input jplace files have differing reference trees." := by
  exact ⟨rfl, rfl, rfl⟩

/-- C4 (amended): when two samples in one run have incompatible reference
trees, or a sample produces a per-edge mass vector whose length differs
from previously-seen vectors, the run aborts with the fixed fatal error
message "Input jplace files have differing reference trees.", which does
not name the offending file. -/
theorem heat_tree_incompatibility_aborts (p1 p2 : String) (s1 s2 : Sample)
    (h1 : s1.tree.isEmptyTree = false)
    (h2 : compatible_trees s1.tree s2.tree = false ∨
      (compatible_trees s1.tree s2.tree = true ∧ s1.massPerEdge ≠ [] ∧
        s1.massPerEdge.length ≠ s2.massPerEdge.length)) :
    accumulate_masses [(p1, s1), (p2, s2)] = Except.error heat_tree_error_msg := by
  have hstep1 : heat_step (Tree.emptyTree, []) s1 = Except.ok (s1.tree, s1.massPerEdge) := rfl
  have hstep2 : heat_step (s1.tree, s1.massPerEdge) s2 = Except.error heat_tree_error_msg := by
    rcases h2 with h2 | ⟨h2, h3, h4⟩
    · unfold heat_step
      simp [h1, h2]
    · unfold heat_step
      simp [h1, h2, placement_mass_per_edges_with_multiplicities, List.isEmpty_iff, h3, h4]
  show heat_fold (Tree.emptyTree, []) [(p1, s1), (p2, s2)] = Except.error heat_tree_error_msg
  simp only [heat_fold, hstep1, hstep2]

/-- Witness for C4 (amended): both incompatibility kinds abort with the
fixed message — differing tree adjacency, and a mass vector of differing
length under identical adjacency. -/
theorem heat_tree_incompatibility_aborts_witness :
    accumulate_masses
      [("alpha.jplace", ⟨⟨2, [(0,1,1)]⟩, [1,3]⟩), ("beta.jplace", ⟨⟨2, [(1,0,5)]⟩, [2,1]⟩)] =
      Except.error heat_tree_error_msg ∧
    accumulate_masses
      [("alpha.jplace", ⟨⟨2, [(0,1,1)]⟩, [1,3]⟩), ("beta.jplace", ⟨⟨2, [(0,1,5)]⟩, [2,1,7]⟩)] =
      Except.error heat_tree_error_msg := by
  constructor
  · exact heat_tree_incompatibility_aborts "alpha.jplace" "beta.jplace"
      ⟨⟨2, [(0,1,1)]⟩, [1,3]⟩ ⟨⟨2, [(1,0,5)]⟩, [2,1]⟩ rfl (Or.inl rfl)
  · exact heat_tree_incompatibility_aborts "alpha.jplace" "beta.jplace"
      ⟨⟨2, [(0,1,1)]⟩, [1,3]⟩ ⟨⟨2, [(0,1,5)]⟩, [2,1,7]⟩ rfl
      (Or.inr ⟨rfl, by simp, by simp⟩)

-- ===========================================================================
--  C7 and C10: the relative-mass normalization pass
-- ===========================================================================

/-- C7: in `run_heat_tree`, if relative mass normalization is requested and
the accumulated total mass is positive, the final single-threaded rescaling
pass divides each entry by the total exactly once, and the rescaled vector
sums to 1. -/
theorem heat_tree_relative_norm_sums_to_one (files : List (String × Sample))
    (t : Tree) (v : List ℚ)
    (hacc : accumulate_masses files = Except.ok (t, v)) (hpos : 0 < v.sum) :
    run_heat_tree_masses true files = Except.ok (t, relative_normalize v) ∧
    relative_normalize v = v.map (fun x => some (x / v.sum)) ∧
    (v.map (fun x => x / v.sum)).sum = 1 := by
  refine ⟨?_, ?_, ?_⟩
  · rw [run_heat_tree_masses, hacc]
    rfl
  · rw [relative_normalize]
    refine List.map_congr_left (fun x _ => ?_)
    rw [fdiv, if_neg (ne_of_gt hpos)]
  · rw [sum_map_div, div_self (ne_of_gt hpos)]

/-- Witness for C7: one sample with total mass 4; the rescaled vector is
[1/4, 3/4] and sums to 1. -/
theorem heat_tree_relative_norm_sums_to_one_witness :
    run_heat_tree_masses true [("a.jplace", ⟨⟨2, [(0,1,1)]⟩, [1,3]⟩)] =
      Except.ok (⟨2, [(0,1,1)]⟩, relative_normalize [1,3]) ∧
    ([1,3].map (fun x : ℚ => x / ([1,3] : List ℚ).sum)).sum = 1 := by
  have h := heat_tree_relative_norm_sums_to_one
    [("a.jplace", ⟨⟨2, [(0,1,1)]⟩, [1,3]⟩)] ⟨2, [(0,1,1)]⟩ [1,3] rfl (by norm_num)
  exact ⟨h.1, h.2.2⟩

/-- C10: in `run_heat_tree`, relative normalization divides by the
accumulated total with no guard against zero: whenever the accumulated
total mass is 0, the run still succeeds with no error, and every entry of
the resulting vector is a non-finite value (modelled as `none`). -/
theorem heat_tree_relative_norm_div_by_zero (files : List (String × Sample))
    (t : Tree) (v : List ℚ)
    (hacc : accumulate_masses files = Except.ok (t, v)) (hzero : v.sum = 0) :
    run_heat_tree_masses true files = Except.ok (t, v.map (fun _ => (none : Option ℚ))) ∧
    ∀ x ∈ relative_normalize v, x = none := by
  have hrel : relative_normalize v = v.map (fun _ => (none : Option ℚ)) := by
    rw [relative_normalize]
    refine List.map_congr_left (fun x _ => ?_)
    rw [fdiv, if_pos hzero]
  constructor
  · rw [run_heat_tree_masses, hacc]
    simp [hrel]
  · intro x hx
    rw [hrel] at hx
    obtain ⟨a, _, hfa⟩ := List.mem_map.mp hx
    exact hfa.symm

/-- Witness for C10: a run over one all-zero-mass sample succeeds and
produces only non-finite entries. -/
theorem heat_tree_relative_norm_div_by_zero_witness :
    run_heat_tree_masses true [("a.jplace", ⟨⟨2, [(0,1,1)]⟩, [0,0]⟩)] =
      Except.ok (⟨2, [(0,1,1)]⟩, [none, none]) := by
  have h := heat_tree_relative_norm_div_by_zero
    [("a.jplace", ⟨⟨2, [(0,1,1)]⟩, [0,0]⟩)] ⟨2, [(0,1,1)]⟩ [0,0] rfl (by norm_num)
  rw [h.1]
  rfl

-- ===========================================================================
--  C9: the empty input set
-- ===========================================================================

/-- Counterexample for C9 as stated: invoked with zero input files, neither
`run_heat_tree` nor `run_nhd` stops with an error; both proceed, producing
an empty tree with an empty mass vector and an empty distance matrix. -/
theorem empty_input_no_error_counterexample :
    run_heat_tree_masses false [] = Except.ok (Tree.emptyTree, []) ∧
    run_nhd_model [] 8 = Except.ok [] := by
  exact ⟨rfl, rfl⟩

/-- C9 (amended): neither `run_heat_tree` nor `run_nhd` checks for an empty
input set; with zero input files the aggregation loop is skipped and the
run proceeds without any error, handing empty results to the output
writers.  Empty-input validation is the caller's responsibility. -/
theorem empty_input_proceeds (rel : Bool) (bins : Nat) :
    run_heat_tree_masses rel [] = Except.ok (Tree.emptyTree, []) ∧
    run_nhd_model [] bins = Except.ok [] := by
  cases rel <;> exact ⟨rfl, rfl⟩

-- ===========================================================================
--  C1: per-sample tree validation
-- ===========================================================================

lemma compatible_trees_refl (t : Tree) : compatible_trees t t = true := by
  simp [compatible_trees]

lemma heat_step_first (s : Sample) :
    heat_step (Tree.emptyTree, []) s = Except.ok (s.tree, s.massPerEdge) := rfl

lemma heat_step_incompatible (st : Tree × List ℚ) (s : Sample)
    (h1 : st.1.isEmptyTree = false) (hc : compatible_trees st.1 s.tree = false) :
    heat_step st s = Except.error heat_tree_error_msg := by
  unfold heat_step
  simp [h1, hc]

lemma heat_step_ok_tree (st : Tree × List ℚ) (s : Sample) (st2 : Tree × List ℚ)
    (h1 : st.1.isEmptyTree = false) (h : heat_step st s = Except.ok st2) :
    st2.1 = st.1 := by
  unfold heat_step at h
  simp only [h1, Bool.false_eq_true, if_false] at h
  by_cases hc : compatible_trees st.1 s.tree = true
  · simp only [hc, if_true] at h
    split at h
    · injection h with h2
      rw [← h2]
    · split at h
      · injection h with h2
        rw [← h2]
      · exact Except.noConfusion h
  · rw [if_neg hc] at h
    exact Except.noConfusion h

lemma heat_step_ok_compat (st : Tree × List ℚ) (s : Sample) (st2 : Tree × List ℚ)
    (h1 : st.1.isEmptyTree = false) (h : heat_step st s = Except.ok st2) :
    compatible_trees st.1 s.tree = true := by
  cases hc : compatible_trees st.1 s.tree
  · rw [heat_step_incompatible st s h1 hc] at h
    exact Except.noConfusion h
  · rfl

lemma heat_fold_ok_compatible :
    ∀ (l : List (String × Sample)) (t0 : Tree) (v0 : List ℚ) (t : Tree) (v : List ℚ),
    t0.isEmptyTree = false → heat_fold (t0, v0) l = Except.ok (t, v) →
    t = t0 ∧ ∀ f ∈ l, compatible_trees t0 f.2.tree = true := by
  intro l
  induction l with
  | nil =>
    intro t0 v0 t v h1 h
    simp only [heat_fold] at h
    injection h with h4
    refine ⟨(congrArg Prod.fst h4).symm, ?_⟩
    intro f hf
    cases hf
  | cons f rest ih =>
    intro t0 v0 t v h1 h
    cases hs : heat_step (t0, v0) f.2 with
    | error e =>
      simp only [heat_fold, hs] at h
      exact Except.noConfusion h
    | ok st2 =>
      simp only [heat_fold, hs] at h
      have hfst := heat_step_ok_tree (t0, v0) f.2 st2 h1 hs
      have hcompat := heat_step_ok_compat (t0, v0) f.2 st2 h1 hs
      have hpair : st2 = (t0, st2.2) := by
        rw [Prod.ext_iff]
        exact ⟨hfst, rfl⟩
      have h2 : heat_fold (t0, st2.2) rest = Except.ok (t, v) := by
        rw [← hpair]
        exact h
      obtain ⟨ht, hrest⟩ := ih t0 st2.2 t v h1 h2
      refine ⟨ht, ?_⟩
      intro g hg
      rcases List.mem_cons.mp hg with rfl | hg2
      · exact hcompat
      · exact hrest g hg2

/-- Counterexample for C1 as stated: `run_nhd` performs no tree
compatibility validation at all — on two samples whose reference trees are
incompatible (same node count, differing edge adjacency), the whole run
completes without any error instead of aborting. -/
theorem nhd_no_tree_validation_counterexample :
    compatible_trees ⟨2, [(0,1,1)]⟩ ⟨2, [(1,0,5)]⟩ = false ∧
    ∃ M, run_nhd_model
      [("a.jplace", ⟨⟨2, [(0,1,1)]⟩, [1]⟩), ("b.jplace", ⟨⟨2, [(1,0,5)]⟩, [1]⟩)] 4 =
      Except.ok M :=
  ⟨rfl, ⟨_, rfl⟩⟩

/-- C1 (amended): in `run_heat_tree` every sample whose per-sample result
is contributed has been validated against the published reference tree —
whenever the accumulation succeeds, every input sample's tree is compatible
with the published tree, so a mismatch is a fatal error, never a per-sample
skip.  `run_nhd`, however, performs no such validation (the code carries a
TODO remarking exactly this): a run over incompatible samples completes
without error. -/
theorem heat_tree_validates_trees_nhd_does_not :
    (∀ (files : List (String × Sample)) (t : Tree) (v : List ℚ),
      (∀ f ∈ files, f.2.tree.isEmptyTree = false) →
      accumulate_masses files = Except.ok (t, v) →
      ∀ f ∈ files, compatible_trees t f.2.tree = true) ∧
    (compatible_trees ⟨2, [(0,1,1)]⟩ ⟨2, [(1,0,5)]⟩ = false ∧
      ∃ M, run_nhd_model
        [("a.jplace", ⟨⟨2, [(0,1,1)]⟩, [2]⟩), ("b.jplace", ⟨⟨2, [(1,0,5)]⟩, [2]⟩)] 4 =
        Except.ok M) := by
  constructor
  · intro files t v htrees hacc f hf
    cases files with
    | nil => cases hf
    | cons f1 rest =>
      unfold accumulate_masses at hacc
      simp only [heat_fold, heat_step_first] at hacc
      have h1 : f1.2.tree.isEmptyTree = false := htrees f1 (List.mem_cons_self f1 rest)
      obtain ⟨ht, hrest⟩ := heat_fold_ok_compatible rest f1.2.tree f1.2.massPerEdge t v h1 hacc
      subst ht
      rcases List.mem_cons.mp hf with rfl | hf2
      · exact compatible_trees_refl _
      · exact hrest f hf2
  · exact ⟨rfl, ⟨_, rfl⟩⟩

/-- Witness for C1 (amended): a successful two-sample heat-tree run, from
which the theorem yields that the second sample's tree is compatible with
the published reference tree. -/
theorem heat_tree_validates_trees_nhd_does_not_witness :
    compatible_trees ⟨2, [(0,1,1)]⟩
      (⟨⟨2, [(0,1,5)]⟩, [1,2]⟩ : Sample).tree = true :=
  heat_tree_validates_trees_nhd_does_not.1
    [("a.jplace", ⟨⟨2, [(0,1,1)]⟩, [1,2]⟩), ("b.jplace", ⟨⟨2, [(0,1,5)]⟩, [1,2]⟩)]
    ⟨2, [(0,1,1)]⟩ [2,4]
    (by decide)
    (by norm_num [accumulate_masses, heat_fold, heat_step,
      placement_mass_per_edges_with_multiplicities, compatible_trees, Tree.isEmptyTree,
      Tree.emptyTree])
    ("b.jplace", ⟨⟨2, [(0,1,5)]⟩, [1,2]⟩) (by simp)

-- ===========================================================================
--  C6: order independence of the accumulation
-- ===========================================================================

lemma range_map_vidx (v : List ℚ) :
    (List.range v.length).map (fun i => vidx v i) = v := by
  apply List.ext_getElem (by simp)
  intro i h1 h2
  rw [List.getElem_map, List.getElem_range, vidx, List.getElem?_eq_getElem h2]
  rfl

lemma vidx_zipWith_add (a b : List ℚ) (i : Nat) (hi : i < a.length)
    (hab : a.length = b.length) :
    vidx (List.zipWith (fun x y => x + y) a b) i = vidx a i + vidx b i := by
  have hib : i < b.length := hab ▸ hi
  have hiz : i < (List.zipWith (fun x y : ℚ => x + y) a b).length := by
    simp only [List.length_zipWith, lt_min_iff]
    exact ⟨hi, hib⟩
  rw [vidx, vidx, vidx, List.getElem?_eq_getElem hiz, List.getElem?_eq_getElem hi,
    List.getElem?_eq_getElem hib]
  simp [List.getElem_zipWith]

lemma map_range_ext (n : Nat) (f g : Nat → ℚ) (h : ∀ i, i < n → f i = g i) :
    (List.range n).map f = (List.range n).map g := by
  apply List.map_congr_left
  intro a ha
  exact h a (List.mem_range.mp ha)

lemma heat_fold_closed_form (n : Nat) (hn : 0 < n) :
    ∀ (l : List (String × Sample)) (t0 : Tree) (v0 : List ℚ),
    t0.isEmptyTree = false → v0.length = n →
    (∀ f ∈ l, compatible_trees t0 f.2.tree = true) →
    (∀ f ∈ l, f.2.massPerEdge.length = n) →
    heat_fold (t0, v0) l =
      Except.ok (t0, (List.range n).map (fun i =>
        vidx v0 i + (l.map (fun f => vidx f.2.massPerEdge i)).sum)) := by
  intro l
  induction l with
  | nil =>
    intro t0 v0 h1 h2 _ _
    simp only [heat_fold, List.map_nil, List.sum_nil, add_zero]
    rw [← h2, range_map_vidx]
  | cons f rest ih =>
    intro t0 v0 h1 h2 hcomp hlen
    have hmass : f.2.massPerEdge.length = n := hlen f (List.mem_cons_self f rest)
    have hv0ne : v0.isEmpty = false := by
      rw [List.isEmpty_eq_false]
      intro hv
      rw [hv] at h2
      simp at h2
      omega
    have hstep : heat_step (t0, v0) f.2 =
        Except.ok (t0, List.zipWith (fun a b => a + b) v0 f.2.massPerEdge) := by
      unfold heat_step
      simp [h1, hcomp f (List.mem_cons_self f rest), hv0ne,
        placement_mass_per_edges_with_multiplicities, h2, hmass]
    simp only [heat_fold, hstep]
    have hlen2 : (List.zipWith (fun a b : ℚ => a + b) v0 f.2.massPerEdge).length = n := by
      simp [h2, hmass]
    rw [ih t0 _ h1 hlen2 (fun g hg => hcomp g (List.mem_cons_of_mem f hg))
      (fun g hg => hlen g (List.mem_cons_of_mem f hg))]
    congr 2
    apply map_range_ext
    intro i hi
    rw [vidx_zipWith_add v0 f.2.massPerEdge i (h2 ▸ hi) (by rw [h2, hmass])]
    simp [add_assoc]

lemma accumulate_masses_closed_form (n : Nat) (hn : 0 < n)
    (f1 : String × Sample) (rest : List (String × Sample))
    (htrees : ∀ f ∈ f1 :: rest, f.2.tree.isEmptyTree = false)
    (hcomp : ∀ f ∈ f1 :: rest, ∀ g ∈ f1 :: rest, compatible_trees f.2.tree g.2.tree = true)
    (hlen : ∀ f ∈ f1 :: rest, f.2.massPerEdge.length = n) :
    accumulate_masses (f1 :: rest) = Except.ok (f1.2.tree, mass_sum_vec n (f1 :: rest)) := by
  have hvec : mass_sum_vec n (f1 :: rest) = (List.range n).map (fun i =>
      vidx f1.2.massPerEdge i + (rest.map (fun f => vidx f.2.massPerEdge i)).sum) := by
    unfold mass_sum_vec
    apply map_range_ext
    intro i hi
    simp
  unfold accumulate_masses
  simp only [heat_fold, heat_step_first]
  rw [heat_fold_closed_form n hn rest f1.2.tree f1.2.massPerEdge
    (htrees f1 (List.mem_cons_self f1 rest))
    (hlen f1 (List.mem_cons_self f1 rest))
    (fun g hg => hcomp f1 (List.mem_cons_self f1 rest) g (List.mem_cons_of_mem f1 hg))
    (fun g hg => hlen g (List.mem_cons_of_mem f1 hg)), hvec]

/-- C6: for every list of compatible samples (non-empty, all trees
non-empty and pairwise compatible, all mass vectors of one positive common
length) and every permutation of that list, the accumulated mass vector of
`run_heat_tree` is identical: in this exact-arithmetic embedding the
accumulation is an index-wise commutative sum over the per-sample mass
vectors, hence independent of processing order. -/
theorem heat_tree_order_independent (l l2 : List (String × Sample)) (n : Nat)
    (hperm : l.Perm l2) (hn : 0 < n) (hnil : l ≠ [])
    (htrees : ∀ f ∈ l, f.2.tree.isEmptyTree = false)
    (hcomp : ∀ f ∈ l, ∀ g ∈ l, compatible_trees f.2.tree g.2.tree = true)
    (hlen : ∀ f ∈ l, f.2.massPerEdge.length = n) :
    ∃ t t2 v, accumulate_masses l = Except.ok (t, v) ∧
      accumulate_masses l2 = Except.ok (t2, v) := by
  rcases l with _ | ⟨f1, rest⟩
  · exact absurd rfl hnil
  rcases l2 with _ | ⟨f2, rest2⟩
  · exact absurd hperm.eq_nil (by simp)
  have h2trees : ∀ f ∈ f2 :: rest2, f.2.tree.isEmptyTree = false :=
    fun f hf => htrees f (hperm.mem_iff.mpr hf)
  have h2comp : ∀ f ∈ f2 :: rest2, ∀ g ∈ f2 :: rest2,
      compatible_trees f.2.tree g.2.tree = true :=
    fun f hf g hg => hcomp f (hperm.mem_iff.mpr hf) g (hperm.mem_iff.mpr hg)
  have h2len : ∀ f ∈ f2 :: rest2, f.2.massPerEdge.length = n :=
    fun f hf => hlen f (hperm.mem_iff.mpr hf)
  have e1 := accumulate_masses_closed_form n hn f1 rest htrees hcomp hlen
  have e2 := accumulate_masses_closed_form n hn f2 rest2 h2trees h2comp h2len
  refine ⟨f1.2.tree, f2.2.tree, mass_sum_vec n (f1 :: rest), e1, ?_⟩
  rw [e2]
  congr 2
  unfold mass_sum_vec
  apply map_range_ext
  intro i hi
  exact ((hperm.map (fun f => vidx f.2.massPerEdge i)).sum_eq).symm

/-- Witness for C6: two concrete compatible samples accumulated in both
orders yield the same mass vector. -/
theorem heat_tree_order_independent_witness :
    ∃ t t2 v,
      accumulate_masses
        [("a.jplace", ⟨⟨2, [(0,1,1)]⟩, [1,3]⟩), ("b.jplace", ⟨⟨2, [(0,1,5)]⟩, [2,1]⟩)] =
        Except.ok (t, v) ∧
      accumulate_masses
        [("b.jplace", ⟨⟨2, [(0,1,5)]⟩, [2,1]⟩), ("a.jplace", ⟨⟨2, [(0,1,1)]⟩, [1,3]⟩)] =
        Except.ok (t2, v) :=
  heat_tree_order_independent
    [("a.jplace", ⟨⟨2, [(0,1,1)]⟩, [1,3]⟩), ("b.jplace", ⟨⟨2, [(0,1,5)]⟩, [2,1]⟩)]
    [("b.jplace", ⟨⟨2, [(0,1,5)]⟩, [2,1]⟩), ("a.jplace", ⟨⟨2, [(0,1,1)]⟩, [1,3]⟩)]
    2 (by decide) (by decide) (by decide) (by decide) (by decide) (by decide)

-- ===========================================================================
--  C5: one-time construction of the shared nhd structures
-- ===========================================================================

lemma nbldm_ne_nil (t : Tree) (h : t.nodeCount ≠ 0) :
    node_branch_length_distance_matrix t ≠ [] := by
  unfold node_branch_length_distance_matrix
  intro hc
  rw [List.map_eq_nil, List.range_eq_nil] at hc
  exact h hc

lemma nhd_fold_invariant (samples : List Sample) (bins : Nat) (D : List (List ℚ))
    (S : List (List Int)) :
    ∀ (order : List Nat) (st : NhdState),
    st.node_distances = D → st.node_sides = S → D ≠ [] →
    st.hist_vecs.length = samples.length →
    (order.foldl (nhd_step samples bins) st).node_distances = D ∧
    (order.foldl (nhd_step samples bins) st).node_sides = S ∧
    (order.foldl (nhd_step samples bins) st).hist_vecs.length = samples.length ∧
    (∀ fi s, fi ∈ order → samples[fi]? = some s →
      ((order.foldl (nhd_step samples bins) st).hist_vecs)[fi]? =
        some (some (node_distance_histogram_set s D S bins))) ∧
    (∀ fi, fi ∉ order →
      ((order.foldl (nhd_step samples bins) st).hist_vecs)[fi]? = st.hist_vecs[fi]?) := by
  intro order
  induction order with
  | nil =>
    intro st h1 h2 h3 h4
    refine ⟨h1, h2, h4, ?_, ?_⟩
    · intro fi s hmem _
      cases hmem
    · intro fi _
      rfl
  | cons fi1 rest ih =>
    intro st h1 h2 h3 h4
    rw [List.foldl_cons]
    cases hs : samples[fi1]? with
    | none =>
      have hstep : nhd_step samples bins st fi1 = st := by
        unfold nhd_step
        rw [hs]
      rw [hstep]
      obtain ⟨i1, i2, i3, i4, i5⟩ := ih st h1 h2 h3 h4
      refine ⟨i1, i2, i3, ?_, ?_⟩
      · intro fi s hmem hsome
        rcases List.mem_cons.mp hmem with rfl | hmem2
        · rw [hs] at hsome
          exact Option.noConfusion hsome
        · exact i4 fi s hmem2 hsome
      · intro fi hnot
        exact i5 fi (fun hm => hnot (List.mem_cons_of_mem fi1 hm))
    | some sample =>
      have hlt : fi1 < samples.length := by
        rcases List.getElem?_eq_some.mp hs with ⟨hl, _⟩
        exact hl
      have hne : st.node_distances.isEmpty = false := by
        rw [h1, List.isEmpty_eq_false]
        exact h3
      have hstep : nhd_step samples bins st fi1 =
          ⟨st.node_distances, st.node_sides,
            st.hist_vecs.set fi1 (some (node_distance_histogram_set sample D S bins))⟩ := by
        unfold nhd_step
        rw [hs]
        simp [hne, h1, h2, h3]
      rw [hstep]
      obtain ⟨i1, i2, i3, i4, i5⟩ := ih
        ⟨st.node_distances, st.node_sides,
          st.hist_vecs.set fi1 (some (node_distance_histogram_set sample D S bins))⟩
        h1 h2 h3 (by rw [List.length_set]; exact h4)
      refine ⟨i1, i2, i3, ?_, ?_⟩
      · intro fi s hmem hsome
        by_cases hin : fi ∈ rest
        · exact i4 fi s hin hsome
        · have hfi : fi = fi1 := by
            rcases List.mem_cons.mp hmem with h | h
            · exact h
            · exact absurd h hin
          subst hfi
          have hss : s = sample := by
            rw [hs] at hsome
            injection hsome with h
            exact h.symm
          subst hss
          rw [i5 fi hin]
          exact List.getElem?_set_self (h4 ▸ hlt)
      · intro fi hnot
        have hne1 : fi1 ≠ fi := by
          intro hh
          exact hnot (hh ▸ List.mem_cons_self fi1 rest)
        rw [i5 fi (fun hm => hnot (List.mem_cons_of_mem fi1 hm))]
        exact List.getElem?_set_ne hne1

/-- C5: in the `run_nhd` loop, for every processing order, the shared node
distance matrix and node side matrix are built exactly once, from whichever
sample is processed first; once non-empty they are never rebuilt or
modified by any later iteration, and every per-sample histogram reduction
observes the fully built structures. -/
theorem nhd_shared_build_once (samples : List Sample) (bins : Nat)
    (fi0 : Nat) (rest : List Nat) (s0 : Sample)
    (h0 : samples[fi0]? = some s0) (hn0 : s0.tree.nodeCount ≠ 0) :
    (run_nhd_loop samples bins (fi0 :: rest)).node_distances =
      node_branch_length_distance_matrix s0.tree ∧
    (run_nhd_loop samples bins (fi0 :: rest)).node_sides =
      node_root_direction_matrix s0.tree ∧
    (∀ fi s, fi ∈ fi0 :: rest → samples[fi]? = some s →
      ((run_nhd_loop samples bins (fi0 :: rest)).hist_vecs)[fi]? =
        some (some (node_distance_histogram_set s
          (node_branch_length_distance_matrix s0.tree)
          (node_root_direction_matrix s0.tree) bins))) := by
  have hlt0 : fi0 < samples.length := by
    rcases List.getElem?_eq_some.mp h0 with ⟨hl, _⟩
    exact hl
  unfold run_nhd_loop
  rw [List.foldl_cons]
  have hinit : nhd_step samples bins ⟨[], [], List.replicate samples.length none⟩ fi0 =
      ⟨node_branch_length_distance_matrix s0.tree, node_root_direction_matrix s0.tree,
        (List.replicate samples.length none).set fi0
          (some (node_distance_histogram_set s0
            (node_branch_length_distance_matrix s0.tree)
            (node_root_direction_matrix s0.tree) bins))⟩ := by
    unfold nhd_step
    rw [h0]
    rfl
  rw [hinit]
  obtain ⟨i1, i2, _, i4, i5⟩ := nhd_fold_invariant samples bins
    (node_branch_length_distance_matrix s0.tree) (node_root_direction_matrix s0.tree)
    rest
    ⟨node_branch_length_distance_matrix s0.tree, node_root_direction_matrix s0.tree,
      (List.replicate samples.length none).set fi0
        (some (node_distance_histogram_set s0
          (node_branch_length_distance_matrix s0.tree)
          (node_root_direction_matrix s0.tree) bins))⟩
    rfl rfl (nbldm_ne_nil s0.tree hn0)
    (by rw [List.length_set, List.length_replicate])
  refine ⟨i1, i2, ?_⟩
  intro fi s hmem hsome
  by_cases hin : fi ∈ rest
  · exact i4 fi s hin hsome
  · have hfi : fi = fi0 := by
      rcases List.mem_cons.mp hmem with h | h
      · exact h
      · exact absurd h hin
    subst hfi
    have hss : s = s0 := by
      rw [h0] at hsome
      injection hsome with h
      exact h.symm
    subst hss
    rw [i5 fi hin]
    exact List.getElem?_set_self (by rw [List.length_replicate]; exact hlt0)

/-- Witness for C5: a two-sample run processed in the order 1, 0 builds the
shared matrices from sample 1 (the first processed), and sample 0's
histogram reduction observes exactly those matrices. -/
theorem nhd_shared_build_once_witness :
    (run_nhd_loop [⟨⟨2, [(0,1,1)]⟩, [1]⟩, ⟨⟨3, [(0,1,1),(1,2,2)]⟩, [1,2]⟩] 4 [1, 0]).node_distances =
      node_branch_length_distance_matrix (⟨3, [(0,1,1),(1,2,2)]⟩ : Tree) ∧
    ((run_nhd_loop [⟨⟨2, [(0,1,1)]⟩, [1]⟩, ⟨⟨3, [(0,1,1),(1,2,2)]⟩, [1,2]⟩] 4 [1, 0]).hist_vecs)[0]? =
      some (some (node_distance_histogram_set (⟨⟨2, [(0,1,1)]⟩, [1]⟩ : Sample)
        (node_branch_length_distance_matrix (⟨3, [(0,1,1),(1,2,2)]⟩ : Tree))
        (node_root_direction_matrix (⟨3, [(0,1,1),(1,2,2)]⟩ : Tree)) 4)) :=
  have h := nhd_shared_build_once
    [⟨⟨2, [(0,1,1)]⟩, [1]⟩, ⟨⟨3, [(0,1,1),(1,2,2)]⟩, [1,2]⟩] 4 1 [0]
    ⟨⟨3, [(0,1,1),(1,2,2)]⟩, [1,2]⟩ rfl (by decide)
  ⟨h.1, h.2.2 0 ⟨⟨2, [(0,1,1)]⟩, [1]⟩ (by simp) rfl⟩

-- ===========================================================================
--  C8: properties of the pairwise distance matrix
-- ===========================================================================

lemma zipWith_sub_comm (a : List ℚ) : ∀ b : List ℚ,
    List.zipWith (fun x y => x - y) b a =
      (List.zipWith (fun x y => x - y) a b).map (fun x => -x) := by
  induction a with
  | nil =>
    intro b
    cases b <;> simp
  | cons x xs ih =>
    intro b
    cases b with
    | nil => simp
    | cons y ys =>
      simp only [List.zipWith_cons_cons, List.map_cons, ih ys, neg_sub]

lemma scanl_add_neg (l : List ℚ) : ∀ c : ℚ,
    (l.map (fun x => -x)).scanl (fun acc x => acc + x) (-c) =
      (l.scanl (fun acc x => acc + x) c).map (fun x => -x) := by
  induction l with
  | nil =>
    intro c
    simp
  | cons x xs ih =>
    intro c
    simp only [List.map_cons, List.scanl_cons]
    rw [show -c + -x = -(c + x) by ring, ih (c + x)]
    simp

lemma histogram_emd_comm (a b : List ℚ) : histogram_emd a b = histogram_emd b a := by
  unfold histogram_emd
  rw [zipWith_sub_comm a b]
  have h := scanl_add_neg (List.zipWith (fun x y => x - y) a b) 0
  rw [neg_zero] at h
  rw [h, List.map_map]
  congr 1
  apply List.map_congr_left
  intro x _
  exact (abs_neg x).symm

lemma histogram_emd_nonneg (a b : List ℚ) : 0 ≤ histogram_emd a b := by
  unfold histogram_emd
  apply List.sum_nonneg
  intro x hx
  obtain ⟨y, _, hy⟩ := List.mem_map.mp hx
  rw [← hy]
  exact abs_nonneg y

lemma hist_set_distance_comm (x y : List (List ℚ)) :
    hist_set_distance x y = hist_set_distance y x := by
  unfold hist_set_distance
  rw [List.zipWith_comm_of_comm _ histogram_emd_comm]

lemma hist_set_distance_nonneg (x : List (List ℚ)) : ∀ y, 0 ≤ hist_set_distance x y := by
  induction x with
  | nil =>
    intro y
    simp [hist_set_distance]
  | cons a xs ih =>
    intro y
    cases y with
    | nil => simp [hist_set_distance]
    | cons b ys =>
      unfold hist_set_distance
      simp only [List.zipWith_cons_cons, List.sum_cons]
      have h1 := ih ys
      unfold hist_set_distance at h1
      have h2 := histogram_emd_nonneg a b
      linarith

lemma nhd_entry_diag (hv : List (List (List ℚ))) (i : Nat) : nhd_entry hv i i = 0 := by
  simp [nhd_entry]

lemma nhd_entry_symm (hv : List (List (List ℚ))) (i j : Nat) :
    nhd_entry hv i j = nhd_entry hv j i := by
  unfold nhd_entry
  by_cases h : i = j
  · subst h
    rfl
  · rw [if_neg h, if_neg (Ne.symm h), min_comm j i, max_comm j i]

lemma nhd_entry_nonneg (hv : List (List (List ℚ))) (i j : Nat) : 0 ≤ nhd_entry hv i j := by
  unfold nhd_entry
  split
  · exact le_refl 0
  · exact hist_set_distance_nonneg _ _

lemma node_histogram_distance_get (hv : List (List (List ℚ))) (i j : Nat)
    (hi : i < hv.length) (hj : j < hv.length) :
    ((node_histogram_distance hv)[i]!)[j]! = nhd_entry hv i j := by
  unfold node_histogram_distance
  rw [getElem!_pos _ i (by simp [hi]), List.getElem_map, List.getElem_range,
    getElem!_pos _ j (by simp [hj]), List.getElem_map, List.getElem_range]

/-- C8: for every collection of at least one node histogram set, the
pairwise distance matrix is N×N with a zero diagonal, symmetric, and
non-negative in every entry. -/
theorem nhd_matrix_properties (hv : List (List (List ℚ))) (hN : 1 ≤ hv.length) :
    (node_histogram_distance hv).length = hv.length ∧
    (∀ row ∈ node_histogram_distance hv, row.length = hv.length) ∧
    (∀ i, i < hv.length → ((node_histogram_distance hv)[i]!)[i]! = 0) ∧
    (∀ i j, i < hv.length → j < hv.length →
      ((node_histogram_distance hv)[i]!)[j]! = ((node_histogram_distance hv)[j]!)[i]!) ∧
    (∀ i j, i < hv.length → j < hv.length →
      0 ≤ ((node_histogram_distance hv)[i]!)[j]!) := by
  refine ⟨by simp [node_histogram_distance], ?_, ?_, ?_, ?_⟩
  · intro row hrow
    unfold node_histogram_distance at hrow
    obtain ⟨i, _, hi⟩ := List.mem_map.mp hrow
    rw [← hi]
    simp
  · intro i hi
    rw [node_histogram_distance_get hv i i hi hi, nhd_entry_diag]
  · intro i j hi hj
    rw [node_histogram_distance_get hv i j hi hj,
      node_histogram_distance_get hv j i hj hi, nhd_entry_symm]
  · intro i j hi hj
    rw [node_histogram_distance_get hv i j hi hj]
    exact nhd_entry_nonneg hv i j

/-- Witness for C8: the matrix over two one-node histogram sets is 2×2 with
zero diagonal, symmetric, and non-negative at (0, 1). -/
theorem nhd_matrix_properties_witness :
    (node_histogram_distance [[[1,0]], [[0,1]]]).length = 2 ∧
    ((node_histogram_distance [[[1,0]], [[0,1]]])[0]!)[0]! = 0 ∧
    ((node_histogram_distance [[[1,0]], [[0,1]]])[0]!)[1]! =
      ((node_histogram_distance [[[1,0]], [[0,1]]])[1]!)[0]! ∧
    0 ≤ ((node_histogram_distance [[[1,0]], [[0,1]]])[0]!)[1]! :=
  have h := nhd_matrix_properties [[[1,0]], [[0,1]]] (by simp)
  ⟨h.1, h.2.2.1 0 (by simp), h.2.2.2.1 0 1 (by simp) (by simp),
    h.2.2.2.2 0 1 (by simp) (by simp)⟩

end Gappa
